import Mathlib

/-!
Shallow embedding of `src/uri.py` (greg-lab/uri-parser).

Strings are modelled as `List Char` (Python strings are sequences of Unicode
code points).  The two exception kinds observable from `parse` are modelled by
`PyErr`: `uriError` stands for the library's `UriSyntaxError`, `valueError`
for a built-in `ValueError` escaping uncaught (this happens when `chr` is
applied to a negative value inside `UriParser._decode`).
-/

set_option autoImplicit false

namespace Uri

/-- The two exception kinds `UriParser.parse` can raise: `uriError` models
`UriSyntaxError`, `valueError` models Python's built-in `ValueError`
propagating out of `chr` in `_decode`. -/
inductive PyErr where
  | uriError
  | valueError
  deriving DecidableEq

deriving instance DecidableEq for Except

/-- The tuple `UriParser._reserved_chars` (17 characters; the 11th is the
apostrophe, written via its code point 39). -/
def reservedChars : List Char :=
  [':', '/', '?', '#', '[', ']', '@',
   '!', '$', '&', Char.ofNat 39, '(', ')', '*',
   ',', ';', '=']

/-- Value of an ASCII hexadecimal digit (`0`-`9`, `a`-`f`, `A`-`F`). -/
def hexDigitVal (c : Char) : Option Nat :=
  if '0' ≤ c ∧ c ≤ '9' then some (c.toNat - 48)
  else if 'a' ≤ c ∧ c ≤ 'f' then some (c.toNat - 87)
  else if 'A' ≤ c ∧ c ≤ 'F' then some (c.toNat - 55)
  else none

/-- Characters CPython's `int(str, base)` strips as whitespace (ASCII
whitespace, the field separators 0x1c-0x1f, NEL 0x85 and NBSP 0xa0; Unicode
space characters beyond these are not modelled). -/
def pySpace (c : Char) : Bool :=
  c.toNat = 32 || (9 ≤ c.toNat && c.toNat ≤ 13) ||
    (28 ≤ c.toNat && c.toNat ≤ 31) || c.toNat = 133 || c.toNat = 160

/-- Models CPython `int(s, 16)` on the two-character strings
`first_hex_digit + second_hex_digit` that `UriParser._decode` builds:
`int` strips surrounding whitespace, accepts one optional sign, and then
requires at least one digit, so besides two plain hex digits it also accepts
a sign or whitespace character paired with a single hex digit.  (CPython
additionally maps non-ASCII Unicode decimal digits and spaces to ASCII before
converting; that is not modelled — digits here are ASCII hex digits.)
`none` models the `ValueError` that `_decode` catches and turns into
`UriSyntaxError`. -/
def pyIntHex2 (c1 c2 : Char) : Option Int :=
  match hexDigitVal c1, hexDigitVal c2 with
  | some a, some b => some ((16 * a + b : Nat) : Int)
  | some a, none => if pySpace c2 then some ((a : Nat) : Int) else none
  | none, some b =>
      if pySpace c1 then some ((b : Nat) : Int)
      else if c1 = '+' then some ((b : Nat) : Int)
      else if c1 = '-' then some (-((b : Nat) : Int))
      else none
  | none, none => none

/-- Models Python's `chr`: valid for code points `0`-`0x10FFFF`, raises
`ValueError` otherwise.  In `UriParser._decode` this `ValueError` is *not*
caught (only `int`'s is), so it escapes `parse` as `valueError`.  (Values
reaching this function lie in `-15`-`255`, so the surrogate range, where
Lean's `Char.ofNat` and Python's `chr` differ, is never hit.) -/
def pyChr (v : Int) : Except PyErr Char :=
  if v < 0 ∨ 1114111 < v then .error .valueError
  else .ok (Char.ofNat v.toNat)

/-- `UriParser._decode`: `int(hex_num, 16)` with `ValueError` converted to
`UriSyntaxError`, then `chr(value)` (whose own `ValueError`, for negative
values, is uncaught). -/
def decodeChar (c1 c2 : Char) : Except PyErr Char :=
  match pyIntHex2 c1 c2 with
  | none => .error .uriError
  | some v => pyChr v

/-- Index of the first occurrence of `c` (Python `str.find` / `str.index`;
`none` models `find` returning `-1`). -/
def charIndex (c : Char) : List Char → Option Nat
  | [] => none
  | x :: xs => if x = c then some 0 else (charIndex c xs).map (· + 1)

/-- Python `s.split(c, 1)` when `c` occurs in `s`: the text before the first
`c` and the text after it; `none` when `c` does not occur. -/
def splitOnFirst (c : Char) : List Char → Option (List Char × List Char)
  | [] => none
  | x :: xs =>
      if x = c then some ([], xs)
      else (splitOnFirst c xs).map (fun p => (x :: p.1, p.2))

/-- `UriParser._split_uri` as a pure function: returns
`(rawPath, rawQuery, rawFragment)`.  The `.error` results inside the
`some`/`some` branch are unreachable (when the first `?` precedes the first
`#`, both splits succeed); they stand in for the `ValueError` Python would
raise on a failed tuple unpacking. -/
def splitUriRaw (s : List Char) : Except PyErr (List Char × List Char × List Char) :=
  match charIndex '?' s, charIndex '#' s with
  | some qi, some hi =>
      if hi < qi then .error .uriError
      else
        match splitOnFirst '?' s with
        | some (p, rest) =>
            match splitOnFirst '#' rest with
            | some (q, f) => .ok (p, q, f)
            | none => .error .valueError
        | none => .error .valueError
  | some _, none =>
      match splitOnFirst '?' s with
      | some (p, q) => .ok (p, q, [])
      | none => .error .valueError
  | none, some _ =>
      match splitOnFirst '#' s with
      | some (p, f) => .ok (p, [], f)
      | none => .error .valueError
  | none, none => .ok (s, [], [])

/-- `UriParser._parse_path`: single forward scan of the raw path.  `%`
consumes the next two characters and decodes them; a reserved character other
than `/` and `:` raises `UriSyntaxError`; anything else is copied. -/
def parsePath : List Char → Except PyErr (List Char)
  | [] => .ok []
  | c :: rest =>
      if c = '%' then
        match rest with
        | c1 :: c2 :: rest2 =>
            match decodeChar c1 c2 with
            | .error e => .error e
            | .ok d =>
                match parsePath rest2 with
                | .error e => .error e
                | .ok out => .ok (d :: out)
        | _ => .error .uriError
      else if c ∈ reservedChars ∧ c ≠ '/' ∧ c ≠ ':' then .error .uriError
      else
        match parsePath rest with
        | .error e => .error e
        | .ok out => .ok (c :: out)

/-- `UriParser._parse_fragment`: like `_parse_path` but with no whitelisted
reserved characters. -/
def parseFragment : List Char → Except PyErr (List Char)
  | [] => .ok []
  | c :: rest =>
      if c = '%' then
        match rest with
        | c1 :: c2 :: rest2 =>
            match decodeChar c1 c2 with
            | .error e => .error e
            | .ok d =>
                match parseFragment rest2 with
                | .error e => .error e
                | .ok out => .ok (d :: out)
        | _ => .error .uriError
      else if c ∈ reservedChars then .error .uriError
      else
        match parseFragment rest with
        | .error e => .error e
        | .ok out => .ok (c :: out)

/-- `UriParser._decode_all`: percent-decoding with no charset restriction. -/
def decodeAll : List Char → Except PyErr (List Char)
  | [] => .ok []
  | c :: rest =>
      if c = '%' then
        match rest with
        | c1 :: c2 :: rest2 =>
            match decodeChar c1 c2 with
            | .error e => .error e
            | .ok d =>
                match decodeAll rest2 with
                | .error e => .error e
                | .ok out => .ok (d :: out)
        | _ => .error .uriError
      else
        match decodeAll rest with
        | .error e => .error e
        | .ok out => .ok (c :: out)

/-- Python `token.count(c)`. -/
def countEq (c : Char) (s : List Char) : Nat :=
  s.countP (fun x => x = c)

/-- Python `s.split(sep)` with no maxsplit: the empty string yields `[""]`,
and every occurrence of `sep` starts a new (possibly empty) piece. -/
def splitAll (sep : Char) : List Char → List (List Char)
  | [] => [[]]
  | c :: rest =>
      match splitAll sep rest with
      | t :: ts => if c = sep then [] :: t :: ts else (c :: t) :: ts
      | [] => [[]]

/-- The charset pre-check of `UriParser._parse_query`: a raw-query character
that is reserved but neither `&` nor `=` raises `UriSyntaxError`. -/
def badQueryChar (c : Char) : Bool :=
  decide (c ∈ reservedChars) && !(c = '&' : Bool) && !(c = '=' : Bool)

/-- Python dict assignment `d[k] = v` on an insertion-ordered mapping
(modelled as an association list): an existing key keeps its position and has
its value overwritten, a new key is appended. -/
def dictInsert (k v : List Char) :
    List (List Char × List Char) → List (List Char × List Char)
  | [] => [(k, v)]
  | (k', v') :: rest =>
      if k' = k then (k', v) :: rest else (k', v') :: dictInsert k v rest

/-- The token loop of `UriParser._parse_query`, threading the mutable
`self._query_params` dictionary: each token must contain exactly one `=`,
is split on it, both halves are decoded with `_decode_all`, and the pair is
inserted.  On an error the pairs already inserted remain in the state.  The
`none` branch of `splitOnFirst` is unreachable (the count check guarantees an
`=` is present). -/
def parseQueryTokens :
    List (List Char) → List (List Char × List Char) →
      Except PyErr Unit × List (List Char × List Char)
  | [], acc => (.ok (), acc)
  | t :: ts, acc =>
      if countEq '=' t ≠ 1 then (.error .uriError, acc)
      else
        match splitOnFirst '=' t with
        | none => (.error .valueError, acc)
        | some (k, v) =>
            match decodeAll k with
            | .error e => (.error e, acc)
            | .ok dk =>
                match decodeAll v with
                | .error e => (.error e, acc)
                | .ok dv => parseQueryTokens ts (dictInsert dk dv acc)

/-- `UriParser._parse_query` as a pure function on the raw query, starting
from an empty dictionary: an empty raw query returns at once; then the
charset pre-check runs over the whole raw string; then the `&`-split tokens
are processed in order. -/
def parseQuery (q : List Char) : Except PyErr (List (List Char × List Char)) :=
  if q = [] then .ok []
  else if q.any badQueryChar then .error .uriError
  else
    match parseQueryTokens (splitAll '&' q) [] with
    | (.ok _, ps) => .ok ps
    | (.error e, _) => .error e

/-- The four output fields of a `UriParser` instance, in declaration order
(`_path`, `_fragment`, `_query`, `_query_params`).  The accessors
`get_path`, `get_fragment`, `get_query_params` read these fields directly,
whether or not `parse` succeeded. -/
structure UriState where
  path : List Char
  fragment : List Char
  query : List Char
  query_params : List (List Char × List Char)
  deriving DecidableEq

/-- The fields as `__init__` leaves them. -/
def initState : UriState :=
  { path := [], fragment := [], query := [], query_params := [] }

/-- `_split_uri` as a state transformer: on success the three raw components
are stored; on the ordering failure nothing has been assigned yet. -/
def splitStage (uri : List Char) (st : UriState) : Except PyErr Unit × UriState :=
  match splitUriRaw uri with
  | .ok (p, q, f) => (.ok (), { st with path := p, query := q, fragment := f })
  | .error e => (.error e, st)

/-- `_parse_path` as a state transformer: the decoded path is assigned to
`self._path` only after the whole scan succeeded (the accumulator is a local
variable), so on failure the field still holds the raw path. -/
def pathStage (st : UriState) : Except PyErr Unit × UriState :=
  match parsePath st.path with
  | .ok d => (.ok (), { st with path := d })
  | .error e => (.error e, st)

/-- `_parse_fragment` as a state transformer (same assign-on-success shape as
`pathStage`). -/
def fragmentStage (st : UriState) : Except PyErr Unit × UriState :=
  match parseFragment st.fragment with
  | .ok d => (.ok (), { st with fragment := d })
  | .error e => (.error e, st)

/-- `_parse_query` as a state transformer: `self._query_params` is mutated
token by token, so pairs inserted before a failing token survive the
failure. -/
def queryStage (st : UriState) : Except PyErr Unit × UriState :=
  if st.query = [] then (.ok (), st)
  else if st.query.any badQueryChar then (.error .uriError, st)
  else
    match parseQueryTokens (splitAll '&' st.query) st.query_params with
    | (.ok _, ps) => (.ok (), { st with query_params := ps })
    | (.error e, ps) => (.error e, { st with query_params := ps })

/-- `UriParser.parse` on a fresh instance: `_split_uri`, `_parse_path`,
`_parse_fragment`, `_parse_query` in that order, stopping at the first
raised exception; the state at that moment is what the accessors then
expose. -/
def runParse (uri : List Char) : Except PyErr Unit × UriState :=
  match splitStage uri initState with
  | (.error e, st) => (.error e, st)
  | (.ok _, st1) =>
      match pathStage st1 with
      | (.error e, st) => (.error e, st)
      | (.ok _, st2) =>
          match fragmentStage st2 with
          | (.error e, st) => (.error e, st)
          | (.ok _, st3) => queryStage st3

/-! Specification-side helper functions, used to state properties of the
mapping returned by the query decoder and of percent-encoding. -/

/-- The keys of the mapping, in iteration order. -/
def keysOf (m : List (List Char × List Char)) : List (List Char) :=
  m.map Prod.fst

/-- Lookup in the insertion-ordered mapping. -/
def assocLookup (k : List Char) : List (List Char × List Char) → Option (List Char)
  | [] => none
  | (k', v) :: rest => if k' = k then some v else assocLookup k rest

/-- Deduplication keeping first occurrences, relative to keys already seen. -/
def dedupFirstFrom (seen : List (List Char)) : List (List Char) → List (List Char)
  | [] => []
  | k :: rest =>
      if k ∈ seen then dedupFirstFrom seen rest
      else k :: dedupFirstFrom (seen ++ [k]) rest

/-- The keys of a list in order of first occurrence. -/
def dedupFirst (l : List (List Char)) : List (List Char) :=
  dedupFirstFrom [] l

/-- The value paired with the *last* occurrence of `k` in the list. -/
def lastVal (k : List Char) : List (List Char × List Char) → Option (List Char)
  | [] => none
  | p :: rest =>
      match lastVal k rest with
      | some v => some v
      | none => if p.1 = k then some p.2 else none

/-- The decoded key/value pairs of a token list, in token order (defined from
the source's `splitOnFirst` and `decodeAll`); `none` when some token has no
`=` or fails to decode. -/
def decodeTokens : List (List Char) → Option (List (List Char × List Char))
  | [] => some []
  | t :: ts =>
      match splitOnFirst '=' t with
      | none => none
      | some (k, v) =>
          match decodeAll k, decodeAll v with
          | .ok dk, .ok dv => (decodeTokens ts).map (fun r => (dk, dv) :: r)
          | _, _ => none

/-- Folding a pair list into the mapping with Python-dict insertion. -/
def foldInsert (acc : List (List Char × List Char))
    (l : List (List Char × List Char)) : List (List Char × List Char) :=
  l.foldl (fun a p => dictInsert p.1 p.2 a) acc

/-- Uppercase hexadecimal digit character of `d < 16`. -/
def upperHexChar (d : Nat) : Char :=
  if d < 10 then Char.ofNat (48 + d) else Char.ofNat (55 + d)

/-- Lowercase hexadecimal digit character of `d < 16`. -/
def lowerHexChar (d : Nat) : Char :=
  if d < 10 then Char.ofNat (48 + d) else Char.ofNat (87 + d)

/-- Percent-encoding of the byte `n` with uppercase hex digits. -/
def encodeByteUpper (n : Nat) : List Char :=
  ['%', upperHexChar (n / 16), upperHexChar (n % 16)]

/-- Percent-encoding of the byte `n` with lowercase hex digits. -/
def encodeByteLower (n : Nat) : List Char :=
  ['%', lowerHexChar (n / 16), lowerHexChar (n % 16)]

/-! Helper lemmas. -/

theorem reserved_facts :
    ∀ c ∈ reservedChars,
      hexDigitVal c = none ∧ pySpace c = false ∧ c ≠ '+' ∧ c ≠ '-' := by
  decide

theorem pyIntHex2_none_of_reserved_left (c1 c2 : Char) (h : c1 ∈ reservedChars) :
    pyIntHex2 c1 c2 = none := by
  have hf := reserved_facts c1 h
  unfold pyIntHex2
  rw [hf.1]
  cases hexDigitVal c2 with
  | none => rfl
  | some b => simp [hf.2.1, hf.2.2.1, hf.2.2.2]

theorem pyIntHex2_none_of_reserved_right (c1 c2 : Char) (h : c2 ∈ reservedChars) :
    pyIntHex2 c1 c2 = none := by
  have hf := reserved_facts c2 h
  unfold pyIntHex2
  rw [hf.1]
  cases hexDigitVal c1 with
  | none => rfl
  | some a => simp [hf.2.1]

theorem decodeChar_reserved_error (c1 c2 : Char)
    (h : c1 ∈ reservedChars ∨ c2 ∈ reservedChars) :
    decodeChar c1 c2 = .error .uriError := by
  rcases h with h | h
  · simp [decodeChar, pyIntHex2_none_of_reserved_left c1 c2 h]
  · simp [decodeChar, pyIntHex2_none_of_reserved_right c1 c2 h]

/-! Readable unfolding equations for the three decode loops. -/

theorem parsePath_esc (c1 c2 : Char) (rest2 : List Char) :
    parsePath ('%' :: c1 :: c2 :: rest2) =
      match decodeChar c1 c2 with
      | .error e => .error e
      | .ok d =>
          match parsePath rest2 with
          | .error e => .error e
          | .ok out => .ok (d :: out) := by
  rw [parsePath.eq_2]; simp

theorem parsePath_pct_nil : parsePath ['%'] = .error .uriError := by
  rw [parsePath.eq_3 '%' [] (by intro _ _ _ h; cases h)]; simp

theorem parsePath_pct_one (c : Char) : parsePath ['%', c] = .error .uriError := by
  rw [parsePath.eq_3 '%' [c] (by intro _ _ _ h; injection h with _ h; cases h)]
  simp

theorem parsePath_cons_ne (c : Char) (rest : List Char) (hc : c ≠ '%') :
    parsePath (c :: rest) =
      if c ∈ reservedChars ∧ c ≠ '/' ∧ c ≠ ':' then .error .uriError
      else
        match parsePath rest with
        | .error e => .error e
        | .ok out => .ok (c :: out) := by
  rcases rest with _ | ⟨a, _ | ⟨b, r⟩⟩
  · rw [parsePath.eq_3 c [] (by intro _ _ _ h; cases h)]; simp [hc]
  · rw [parsePath.eq_3 c [a] (by intro _ _ _ h; injection h with _ h; cases h)]
    simp [hc]
  · rw [parsePath.eq_2]; simp [hc]

theorem parseFragment_esc (c1 c2 : Char) (rest2 : List Char) :
    parseFragment ('%' :: c1 :: c2 :: rest2) =
      match decodeChar c1 c2 with
      | .error e => .error e
      | .ok d =>
          match parseFragment rest2 with
          | .error e => .error e
          | .ok out => .ok (d :: out) := by
  rw [parseFragment.eq_2]; simp

theorem parseFragment_pct_nil : parseFragment ['%'] = .error .uriError := by
  rw [parseFragment.eq_3 '%' [] (by intro _ _ _ h; cases h)]; simp

theorem parseFragment_pct_one (c : Char) :
    parseFragment ['%', c] = .error .uriError := by
  rw [parseFragment.eq_3 '%' [c] (by intro _ _ _ h; injection h with _ h; cases h)]
  simp

theorem parseFragment_cons_ne (c : Char) (rest : List Char) (hc : c ≠ '%') :
    parseFragment (c :: rest) =
      if c ∈ reservedChars then .error .uriError
      else
        match parseFragment rest with
        | .error e => .error e
        | .ok out => .ok (c :: out) := by
  rcases rest with _ | ⟨a, _ | ⟨b, r⟩⟩
  · rw [parseFragment.eq_3 c [] (by intro _ _ _ h; cases h)]; simp [hc]
  · rw [parseFragment.eq_3 c [a] (by intro _ _ _ h; injection h with _ h; cases h)]
    simp [hc]
  · rw [parseFragment.eq_2]; simp [hc]

theorem decodeAll_esc (c1 c2 : Char) (rest2 : List Char) :
    decodeAll ('%' :: c1 :: c2 :: rest2) =
      match decodeChar c1 c2 with
      | .error e => .error e
      | .ok d =>
          match decodeAll rest2 with
          | .error e => .error e
          | .ok out => .ok (d :: out) := by
  rw [decodeAll.eq_2]; simp

theorem decodeAll_pct_nil : decodeAll ['%'] = .error .uriError := by
  rw [decodeAll.eq_3 '%' [] (by intro _ _ _ h; cases h)]; simp

theorem decodeAll_pct_one (c : Char) : decodeAll ['%', c] = .error .uriError := by
  rw [decodeAll.eq_3 '%' [c] (by intro _ _ _ h; injection h with _ h; cases h)]
  simp

theorem decodeAll_cons_ne (c : Char) (rest : List Char) (hc : c ≠ '%') :
    decodeAll (c :: rest) =
      match decodeAll rest with
      | .error e => .error e
      | .ok out => .ok (c :: out) := by
  rcases rest with _ | ⟨a, _ | ⟨b, r⟩⟩
  · rw [decodeAll.eq_3 c [] (by intro _ _ _ h; cases h)]; simp [hc]
  · rw [decodeAll.eq_3 c [a] (by intro _ _ _ h; injection h with _ h; cases h)]
    simp [hc]
  · rw [decodeAll.eq_2]; simp [hc]

/-- A successful path scan implies no literal or escape position held a
reserved character other than `/` and `:` (a reserved character inside an
escape pair is never a hex digit, sign or space, so `_decode` would have
raised). -/
theorem parsePath_ok_no_reserved (s : List Char) :
    ∀ out, parsePath s = .ok out →
      ∀ c ∈ s, ¬(c ∈ reservedChars ∧ c ≠ '/' ∧ c ≠ ':') := by
  induction s using parsePath.induct with
  | case1 => intro out _ c hc; cases hc
  | case2 c1 c2 rest2 e he =>
      intro out hout
      simp [parsePath_esc, he] at hout
  | case3 c1 c2 rest2 d hd e he ih =>
      intro out hout
      simp [parsePath_esc, hd, he] at hout
  | case4 c1 c2 rest2 d hd out' hout' ih =>
      intro out hout c hc
      simp only [List.mem_cons] at hc
      rcases hc with rfl | rfl | rfl | hc
      · decide
      · intro hres
        rw [decodeChar_reserved_error c c2 (Or.inl hres.1)] at hd
        cases hd
      · intro hres
        rw [decodeChar_reserved_error c1 c (Or.inr hres.1)] at hd
        cases hd
      · exact ih out' hout' c hc
  | case5 xs hshort =>
      intro out hout
      rw [parsePath.eq_3 '%' xs hshort] at hout
      simp at hout
  | case6 x xs hx hres =>
      intro out hout
      rw [parsePath_cons_ne x xs hx, if_pos hres] at hout
      cases hout
  | case7 x xs hx hres e he ih =>
      intro out hout
      rw [parsePath_cons_ne x xs hx, if_neg hres, he] at hout
      cases hout
  | case8 x xs hx hres out' hout' ih =>
      intro out hout c hc
      simp only [List.mem_cons] at hc
      rcases hc with rfl | hc
      · exact hres
      · exact ih out' hout' c hc

/-- A successful fragment scan implies no reserved character at all occurred
in the raw fragment. -/
theorem parseFragment_ok_no_reserved (s : List Char) :
    ∀ out, parseFragment s = .ok out → ∀ c ∈ s, c ∉ reservedChars := by
  induction s using parseFragment.induct with
  | case1 => intro out _ c hc; cases hc
  | case2 c1 c2 rest2 e he =>
      intro out hout
      simp [parseFragment_esc, he] at hout
  | case3 c1 c2 rest2 d hd e he ih =>
      intro out hout
      simp [parseFragment_esc, hd, he] at hout
  | case4 c1 c2 rest2 d hd out' hout' ih =>
      intro out hout c hc
      simp only [List.mem_cons] at hc
      rcases hc with rfl | rfl | rfl | hc
      · decide
      · intro hres
        rw [decodeChar_reserved_error c c2 (Or.inl hres)] at hd
        cases hd
      · intro hres
        rw [decodeChar_reserved_error c1 c (Or.inr hres)] at hd
        cases hd
      · exact ih out' hout' c hc
  | case5 xs hshort =>
      intro out hout
      rw [parseFragment.eq_3 '%' xs hshort] at hout
      simp at hout
  | case6 x xs hx hres =>
      intro out hout
      rw [parseFragment_cons_ne x xs hx, if_pos hres] at hout
      cases hout
  | case7 x xs hx hres e he ih =>
      intro out hout
      rw [parseFragment_cons_ne x xs hx, if_neg hres, he] at hout
      cases hout
  | case8 x xs hx hres out' hout' ih =>
      intro out hout c hc
      simp only [List.mem_cons] at hc
      rcases hc with rfl | hc
      · exact hres
      · exact ih out' hout' c hc

/-- An `Except` over `PyErr` that is not a success is one of the two
errors. -/
theorem except_error_cases {α : Type} (r : Except PyErr α)
    (h : ∀ out, r ≠ .ok out) :
    r = .error .uriError ∨ r = .error .valueError := by
  cases r with
  | error e => cases e
               · exact Or.inl rfl
               · exact Or.inr rfl
  | ok out => exact absurd rfl (h out)

/-- A `%`-free, charset-clean path is copied verbatim. -/
theorem parsePath_verbatim (s : List Char) (hp : '%' ∉ s)
    (hres : ∀ c ∈ s, ¬(c ∈ reservedChars ∧ c ≠ '/' ∧ c ≠ ':')) :
    parsePath s = .ok s := by
  induction s with
  | nil => rfl
  | cons c rest ih =>
      have hc : c ≠ '%' := fun h => hp (h ▸ List.mem_cons_self c rest)
      rw [parsePath_cons_ne c rest hc,
        if_neg (hres c (List.mem_cons_self c rest)),
        ih (fun h => hp (List.mem_cons_of_mem c h))
          (fun d hd => hres d (List.mem_cons_of_mem c hd))]

/-- On a `%`-free input a successful path scan returns the input itself. -/
theorem parsePath_nopct_ok (s : List Char) (hp : '%' ∉ s) :
    ∀ out, parsePath s = .ok out → out = s := by
  induction s with
  | nil => intro out h; cases h; rfl
  | cons c rest ih =>
      intro out hout
      have hc : c ≠ '%' := fun h => hp (h ▸ List.mem_cons_self c rest)
      rw [parsePath_cons_ne c rest hc] at hout
      by_cases hres : c ∈ reservedChars ∧ c ≠ '/' ∧ c ≠ ':'
      · rw [if_pos hres] at hout; cases hout
      · rw [if_neg hres] at hout
        cases hrest : parsePath rest with
        | error e => rw [hrest] at hout; cases hout
        | ok out' =>
            rw [hrest] at hout
            cases hout
            rw [ih (fun h => hp (List.mem_cons_of_mem c h)) out' hrest]

/-- On a `%`-free input a successful fragment scan returns the input
itself. -/
theorem parseFragment_nopct_ok (s : List Char) (hp : '%' ∉ s) :
    ∀ out, parseFragment s = .ok out → out = s := by
  induction s with
  | nil => intro out h; cases h; rfl
  | cons c rest ih =>
      intro out hout
      have hc : c ≠ '%' := fun h => hp (h ▸ List.mem_cons_self c rest)
      rw [parseFragment_cons_ne c rest hc] at hout
      by_cases hres : c ∈ reservedChars
      · rw [if_pos hres] at hout; cases hout
      · rw [if_neg hres] at hout
        cases hrest : parseFragment rest with
        | error e => rw [hrest] at hout; cases hout
        | ok out' =>
            rw [hrest] at hout
            cases hout
            rw [ih (fun h => hp (List.mem_cons_of_mem c h)) out' hrest]

/-- The path scan computes exactly the unrestricted percent-decoding on the
inputs it accepts: the extra charset check can only reject. -/
theorem parsePath_ok_decodeAll (s : List Char) :
    ∀ out, parsePath s = .ok out → decodeAll s = .ok out := by
  induction s using parsePath.induct with
  | case1 => intro out h; exact h
  | case2 c1 c2 rest2 e he =>
      intro out hout
      simp [parsePath_esc, he] at hout
  | case3 c1 c2 rest2 d hd e he ih =>
      intro out hout
      simp [parsePath_esc, hd, he] at hout
  | case4 c1 c2 rest2 d hd out' hout' ih =>
      intro out hout
      rw [parsePath_esc, hd, hout'] at hout
      rw [decodeAll_esc, hd, ih out' hout']
      exact hout
  | case5 xs hshort =>
      intro out hout
      rw [parsePath.eq_3 '%' xs hshort] at hout
      simp at hout
  | case6 x xs hx hres =>
      intro out hout
      rw [parsePath_cons_ne x xs hx, if_pos hres] at hout
      cases hout
  | case7 x xs hx hres e he ih =>
      intro out hout
      rw [parsePath_cons_ne x xs hx, if_neg hres, he] at hout
      cases hout
  | case8 x xs hx hres out' hout' ih =>
      intro out hout
      rw [parsePath_cons_ne x xs hx, if_neg hres, hout'] at hout
      rw [decodeAll_cons_ne x xs hx, ih out' hout']
      exact hout

/-! Lemmas about `charIndex` and `splitOnFirst` (Python `find`/`split`). -/

theorem charIndex_eq_none (c : Char) (s : List Char) (h : c ∉ s) :
    charIndex c s = none := by
  induction s with
  | nil => rfl
  | cons x xs ih =>
      have hx : x ≠ c := fun hxc => h (hxc ▸ List.mem_cons_self x xs)
      rw [charIndex, if_neg hx, ih (fun hm => h (List.mem_cons_of_mem x hm))]
      rfl

theorem charIndex_append (c : Char) (a b : List Char) (h : c ∉ a) :
    charIndex c (a ++ c :: b) = some a.length := by
  induction a with
  | nil => simp [charIndex]
  | cons x xs ih =>
      have hx : x ≠ c := fun hxc => h (hxc ▸ List.mem_cons_self x xs)
      rw [List.cons_append, charIndex, if_neg hx,
        ih (fun hm => h (List.mem_cons_of_mem x hm))]
      rfl

theorem charIndex_append_ne (c d : Char) (a b : List Char) (h : c ∉ a)
    (hcd : c ≠ d) :
    charIndex c (a ++ d :: b) = (charIndex c b).map (· + (a.length + 1)) := by
  induction a with
  | nil =>
      rw [List.nil_append, charIndex, if_neg (fun hh => hcd hh.symm)]
      simp
  | cons x xs ih =>
      have hx : x ≠ c := fun hxc => h (hxc ▸ List.mem_cons_self x xs)
      rw [List.cons_append, charIndex, if_neg hx,
        ih (fun hm => h (List.mem_cons_of_mem x hm))]
      cases charIndex c b with
      | none => rfl
      | some i => simp; omega

theorem splitOnFirst_append (c : Char) (a b : List Char) (h : c ∉ a) :
    splitOnFirst c (a ++ c :: b) = some (a, b) := by
  induction a with
  | nil => simp [splitOnFirst]
  | cons x xs ih =>
      have hx : x ≠ c := fun hxc => h (hxc ▸ List.mem_cons_self x xs)
      rw [List.cons_append, splitOnFirst, if_neg hx,
        ih (fun hm => h (List.mem_cons_of_mem x hm))]
      rfl

/-! Characterization of the splitter on each of its four structural cases. -/

theorem splitUriRaw_ordering_error (s : List Char) (qi hi : Nat)
    (hq : charIndex '?' s = some qi) (hh : charIndex '#' s = some hi)
    (hlt : hi < qi) : splitUriRaw s = .error .uriError := by
  rw [splitUriRaw, hq, hh]
  simp [hlt]

theorem splitUriRaw_both (p q f : List Char) (hqp : '?' ∉ p) (hhp : '#' ∉ p)
    (hhq : '#' ∉ q) :
    splitUriRaw (p ++ '?' :: (q ++ '#' :: f)) = .ok (p, q, f) := by
  have h1 : charIndex '?' (p ++ '?' :: (q ++ '#' :: f)) = some p.length :=
    charIndex_append '?' p (q ++ '#' :: f) hqp
  have h2 : charIndex '#' (p ++ '?' :: (q ++ '#' :: f)) =
      some (q.length + (p.length + 1)) := by
    rw [charIndex_append_ne '#' '?' p (q ++ '#' :: f) hhp (by decide),
      charIndex_append '#' q f hhq]
    rfl
  rw [splitUriRaw, h1, h2]
  dsimp only
  rw [if_neg (by omega : ¬(q.length + (p.length + 1) < p.length)),
    splitOnFirst_append '?' p (q ++ '#' :: f) hqp]
  dsimp only
  rw [splitOnFirst_append '#' q f hhq]

theorem splitUriRaw_query_only (p q : List Char) (hqp : '?' ∉ p)
    (hh : '#' ∉ p ++ '?' :: q) :
    splitUriRaw (p ++ '?' :: q) = .ok (p, q, []) := by
  rw [splitUriRaw, charIndex_append '?' p q hqp,
    charIndex_eq_none '#' _ hh, splitOnFirst_append '?' p q hqp]

theorem splitUriRaw_fragment_only (p f : List Char) (hhp : '#' ∉ p)
    (hq : '?' ∉ p ++ '#' :: f) :
    splitUriRaw (p ++ '#' :: f) = .ok (p, [], f) := by
  rw [splitUriRaw, charIndex_append '#' p f hhp,
    charIndex_eq_none '?' _ hq, splitOnFirst_append '#' p f hhp]

theorem splitUriRaw_neither (s : List Char) (hq : '?' ∉ s) (hh : '#' ∉ s) :
    splitUriRaw s = .ok (s, [], []) := by
  rw [splitUriRaw, charIndex_eq_none '?' s hq, charIndex_eq_none '#' s hh]

/-! Lemmas about the query decoder. -/

theorem splitAll_not_mem (sep : Char) (s : List Char) (h : sep ∉ s) :
    splitAll sep s = [s] := by
  induction s with
  | nil => rfl
  | cons x xs ih =>
      have hx : x ≠ sep := fun hxc => h (hxc ▸ List.mem_cons_self x xs)
      rw [splitAll, ih (fun hm => h (List.mem_cons_of_mem x hm))]
      dsimp only
      rw [if_neg hx]

theorem countEq_cons (c x : Char) (s : List Char) :
    countEq c (x :: s) = (if x = c then 1 else 0) + countEq c s := by
  by_cases hx : x = c
  · simp [countEq, List.countP_cons, hx]
    omega
  · simp [countEq, List.countP_cons, hx]

theorem countEq_not_mem (c : Char) (s : List Char) (h : c ∉ s) :
    countEq c s = 0 := by
  rw [countEq, List.countP_eq_zero]
  intro a ha
  simp only [decide_eq_true_eq]
  intro hac
  exact h (hac ▸ ha)

theorem countEq_append (c : Char) (a b : List Char) :
    countEq c (a ++ b) = countEq c a + countEq c b := by
  simp [countEq, List.countP_append]

/-- If some token has an `=`-count other than one, the token loop cannot
finish normally. -/
theorem parseQueryTokens_not_ok (ts : List (List Char)) (t : List Char)
    (hmem : t ∈ ts) (hcnt : countEq '=' t ≠ 1) :
    ∀ acc u m, parseQueryTokens ts acc ≠ (.ok u, m) := by
  induction ts generalizing t with
  | nil => cases hmem
  | cons t0 ts ih =>
      intro acc u m heq
      by_cases h0 : countEq '=' t0 ≠ 1
      · rw [parseQueryTokens, if_pos h0] at heq
        cases heq
      · rw [parseQueryTokens, if_neg h0] at heq
        have hmem' : t ∈ ts := by
          rcases List.mem_cons.mp hmem with rfl | hm
          · exact absurd hcnt h0
          · exact hm
        cases hsp : splitOnFirst '=' t0 with
        | none => rw [hsp] at heq; cases heq
        | some kv =>
            obtain ⟨k, v⟩ := kv
            rw [hsp] at heq
            dsimp only at heq
            cases hk : decodeAll k with
            | error e => rw [hk] at heq; cases heq
            | ok dk =>
                rw [hk] at heq
                dsimp only at heq
                cases hv : decodeAll v with
                | error e => rw [hv] at heq; cases heq
                | ok dv =>
                    rw [hv] at heq
                    dsimp only at heq
                    exact ih t hmem' hcnt (dictInsert dk dv acc) u m heq

/-- A normally finishing token loop computes the `dictInsert`-fold of the
decoded pairs. -/
theorem parseQueryTokens_ok (ts : List (List Char)) :
    ∀ acc u m, parseQueryTokens ts acc = (.ok u, m) →
      ∃ pairs, decodeTokens ts = some pairs ∧ m = foldInsert acc pairs := by
  induction ts with
  | nil =>
      intro acc u m heq
      cases heq
      exact ⟨[], rfl, rfl⟩
  | cons t0 ts ih =>
      intro acc u m heq
      by_cases h0 : countEq '=' t0 ≠ 1
      · rw [parseQueryTokens, if_pos h0] at heq; cases heq
      · rw [parseQueryTokens, if_neg h0] at heq
        cases hsp : splitOnFirst '=' t0 with
        | none => rw [hsp] at heq; cases heq
        | some kv =>
            obtain ⟨k, v⟩ := kv
            rw [hsp] at heq
            dsimp only at heq
            cases hk : decodeAll k with
            | error e => rw [hk] at heq; cases heq
            | ok dk =>
                rw [hk] at heq
                dsimp only at heq
                cases hv : decodeAll v with
                | error e => rw [hv] at heq; cases heq
                | ok dv =>
                    rw [hv] at heq
                    dsimp only at heq
                    obtain ⟨pairs, hdec, hm⟩ :=
                      ih (dictInsert dk dv acc) u m heq
                    refine ⟨(dk, dv) :: pairs, ?_, ?_⟩
                    · simp [decodeTokens, hsp, hk, hv, hdec]
                    · rw [hm]; rfl

/-! Python-dict semantics of `dictInsert` and its fold. -/

theorem keysOf_dictInsert (k v : List Char) (m : List (List Char × List Char)) :
    keysOf (dictInsert k v m) =
      if k ∈ keysOf m then keysOf m else keysOf m ++ [k] := by
  induction m with
  | nil => simp [dictInsert, keysOf]
  | cons p rest ih =>
      obtain ⟨k', v'⟩ := p
      by_cases hk : k' = k
      · subst hk
        simp [dictInsert, keysOf]
      · rw [dictInsert, if_neg hk]
        have hne : k ≠ k' := fun h => hk h.symm
        simp only [keysOf, List.map_cons, List.mem_cons] at ih ⊢
        rw [ih]
        by_cases hmem : k ∈ List.map Prod.fst rest <;>
          simp [hmem, hne]

theorem assocLookup_dictInsert_self (k v : List Char)
    (m : List (List Char × List Char)) :
    assocLookup k (dictInsert k v m) = some v := by
  induction m with
  | nil => simp [dictInsert, assocLookup]
  | cons p rest ih =>
      obtain ⟨k', v'⟩ := p
      by_cases hk : k' = k
      · subst hk; simp [dictInsert, assocLookup]
      · rw [dictInsert, if_neg hk, assocLookup, if_neg hk]
        exact ih

theorem assocLookup_dictInsert_other (k k' v : List Char)
    (m : List (List Char × List Char)) (h : k' ≠ k) :
    assocLookup k' (dictInsert k v m) = assocLookup k' m := by
  induction m with
  | nil => simp [dictInsert, assocLookup, Ne.symm h]
  | cons p rest ih =>
      obtain ⟨k0, v0⟩ := p
      by_cases hk : k0 = k
      · subst hk
        rw [dictInsert, if_pos rfl, assocLookup, assocLookup,
          if_neg (fun hh => h hh.symm), if_neg (fun hh => h hh.symm)]
      · rw [dictInsert, if_neg hk, assocLookup, assocLookup]
        by_cases h0 : k0 = k'
        · rw [if_pos h0, if_pos h0]
        · rw [if_neg h0, if_neg h0]
          exact ih

theorem keysOf_foldInsert (l : List (List Char × List Char)) :
    ∀ acc, keysOf (foldInsert acc l) =
      keysOf acc ++ dedupFirstFrom (keysOf acc) (l.map Prod.fst) := by
  induction l with
  | nil => intro acc; simp [foldInsert, dedupFirstFrom]
  | cons p l ih =>
      intro acc
      obtain ⟨k, v⟩ := p
      have hstep : foldInsert acc ((k, v) :: l) = foldInsert (dictInsert k v acc) l := rfl
      rw [hstep, ih (dictInsert k v acc), keysOf_dictInsert]
      by_cases hmem : k ∈ keysOf acc
      · rw [if_pos hmem]
        simp only [List.map_cons, dedupFirstFrom, if_pos hmem]
      · rw [if_neg hmem]
        simp only [List.map_cons, dedupFirstFrom, if_neg hmem,
          List.append_assoc, List.singleton_append]

theorem assocLookup_foldInsert (l : List (List Char × List Char)) :
    ∀ acc k, assocLookup k (foldInsert acc l) =
      match lastVal k l with
      | some v => some v
      | none => assocLookup k acc := by
  induction l with
  | nil => intro acc k; simp [foldInsert, lastVal]
  | cons p l ih =>
      intro acc k
      obtain ⟨k0, v0⟩ := p
      have hstep : foldInsert acc ((k0, v0) :: l) = foldInsert (dictInsert k0 v0 acc) l := rfl
      rw [hstep, ih (dictInsert k0 v0 acc) k, lastVal]
      cases hl : lastVal k l with
      | some v => rfl
      | none =>
          by_cases h0 : k0 = k
          · subst h0
            simp [assocLookup_dictInsert_self]
          · simp [assocLookup_dictInsert_other k0 k v0 acc (Ne.symm h0), h0]

/-! Bounds on the values produced by the hex conversion. -/

theorem hexDigitVal_lt (c : Char) (a : Nat) (h : hexDigitVal c = some a) :
    a < 16 := by
  unfold hexDigitVal at h
  split_ifs at h with h1 h2 h3
  · have ha : 48 ≤ c.toNat := h1.1
    have hb : c.toNat ≤ 57 := h1.2
    injection h with h
    omega
  · have ha : 97 ≤ c.toNat := h2.1
    have hb : c.toNat ≤ 102 := h2.2
    injection h with h
    omega
  · have ha : 65 ≤ c.toNat := h3.1
    have hb : c.toNat ≤ 70 := h3.2
    injection h with h
    omega

theorem pyIntHex2_bound (c1 c2 : Char) (v : Int) (h : pyIntHex2 c1 c2 = some v) :
    v ≤ 255 := by
  unfold pyIntHex2 at h
  cases h1 : hexDigitVal c1 with
  | some a =>
      cases h2 : hexDigitVal c2 with
      | some b =>
          rw [h1, h2] at h
          dsimp only at h
          injection h with h
          have hva := hexDigitVal_lt c1 a h1
          have hvb := hexDigitVal_lt c2 b h2
          omega
      | none =>
          rw [h1, h2] at h
          dsimp only at h
          split_ifs at h
          injection h with h
          have hva := hexDigitVal_lt c1 a h1
          omega
  | none =>
      cases h2 : hexDigitVal c2 with
      | some b =>
          rw [h1, h2] at h
          dsimp only at h
          have hvb := hexDigitVal_lt c2 b h2
          split_ifs at h <;> (injection h with h; omega)
      | none =>
          rw [h1, h2] at h
          dsimp only at h
          cases h

/-- A splitter failure propagates out of `parse` with the state still as
`__init__` left it. -/
theorem runParse_split_error (s : List Char) (e : PyErr)
    (h : splitUriRaw s = .error e) : runParse s = (.error e, initState) := by
  simp [runParse, splitStage, h]

/-! Settled claims. -/

/-- C1 is false as stated: the charset restriction does not extend to
characters introduced by percent-decoding.  The input `"%3F"` parses
successfully and the decoded path is `"?"`, which consists of a reserved
character other than `/` and `:`. -/
theorem claimC1_counterexample :
    runParse ("%3F".toList) =
      (.ok (), { path := "?".toList, fragment := [], query := [],
                 query_params := [] }) ∧
    '?' ∈ reservedChars ∧ '?' ≠ '/' ∧ '?' ≠ ':' := by
  decide

/-- C1 (amended): after a successful scan of a raw path (resp. raw fragment)
containing no percent sign, the decoded path contains no reserved character
other than `/` and `:`, and the decoded fragment contains no reserved
character at all; characters introduced by percent-decoding are exempt from
the charset restriction. -/
theorem claimC1 (p f out outf : List Char)
    (hp : '%' ∉ p) (hf : '%' ∉ f)
    (hpok : parsePath p = .ok out) (hfok : parseFragment f = .ok outf) :
    (∀ c ∈ out, c ∈ reservedChars → (c = '/' ∨ c = ':')) ∧
    (∀ c ∈ outf, c ∉ reservedChars) := by
  constructor
  · intro c hc hres
    have hcp : c ∈ p := by
      rw [parsePath_nopct_ok p hp out hpok] at hc; exact hc
    have hno := parsePath_ok_no_reserved p out hpok c hcp
    by_contra hne
    push_neg at hne
    exact hno ⟨hres, hne.1, hne.2⟩
  · intro c hc
    have hcf : c ∈ f := by
      rw [parseFragment_nopct_ok f hf outf hfok] at hc; exact hc
    exact parseFragment_ok_no_reserved f outf hfok c hcf

theorem claimC1_witness :
    (∀ c ∈ ("/ab:c".toList), c ∈ reservedChars → (c = '/' ∨ c = ':')) ∧
    (∀ c ∈ ("xyz".toList), c ∉ reservedChars) :=
  claimC1 ("/ab:c".toList) ("xyz".toList) ("/ab:c".toList) ("xyz".toList)
    (by decide) (by decide) (by decide) (by decide)

/-- C3: the claim that every malformed input raises `UriSyntaxError` is the
documented intent (the usage example catches only `UriSyntaxError`), but the
code violates it: on the malformed escape `"%-1"` Python's `int("-1", 16)`
succeeds with `-1` and the uncaught `chr(-1)` raises `ValueError`, which
escapes `parse`. -/
theorem claimC3 :
    (runParse ("%-1".toList)).fst = .error .valueError ∧
    hexDigitVal '-' = none := by
  decide

/-- C4 is false as stated: a pair that is not two hex digits need not fail.
The input `"%+1"` parses successfully because `int("+1", 16)` accepts the
sign, and the decoded path is the single character of code point 1. -/
theorem claimC4_counterexample :
    runParse ("%+1".toList) =
      (.ok (), { path := [Char.ofNat 1], fragment := [], query := [],
                 query_params := [] }) ∧
    hexDigitVal '+' = none := by
  decide

/-- C4 (amended): in every component decoder a `%` consumes exactly the next
two characters, and fewer than two remaining characters raise
`UriSyntaxError`; the consumed pair is then given to Python's `int(·, 16)`:
a pair it rejects raises `UriSyntaxError`, a pair it accepts with a negative
value (sign quirk, e.g. `"-1"`) leaks `ValueError` from `chr`, and a pair it
accepts with a non-negative value — which includes sign/whitespace forms that
are not two hex digits — decodes to the character of that value. -/
theorem claimC4 (c c1 c2 : Char) :
    (parsePath ['%'] = .error .uriError ∧
     parseFragment ['%'] = .error .uriError ∧
     decodeAll ['%'] = .error .uriError) ∧
    (parsePath ['%', c] = .error .uriError ∧
     parseFragment ['%', c] = .error .uriError ∧
     decodeAll ['%', c] = .error .uriError) ∧
    (pyIntHex2 c1 c2 = none →
      parsePath ['%', c1, c2] = .error .uriError ∧
      parseFragment ['%', c1, c2] = .error .uriError ∧
      decodeAll ['%', c1, c2] = .error .uriError) ∧
    (∀ v : Int, pyIntHex2 c1 c2 = some v → v < 0 →
      decodeAll ['%', c1, c2] = .error .valueError) ∧
    (∀ v : Int, pyIntHex2 c1 c2 = some v → 0 ≤ v →
      decodeAll ['%', c1, c2] = .ok [Char.ofNat v.toNat]) := by
  refine ⟨⟨parsePath_pct_nil, parseFragment_pct_nil, decodeAll_pct_nil⟩,
    ⟨parsePath_pct_one c, parseFragment_pct_one c, decodeAll_pct_one c⟩,
    ?_, ?_, ?_⟩
  · intro hnone
    exact ⟨by simp [parsePath_esc, decodeChar, hnone],
      by simp [parseFragment_esc, decodeChar, hnone],
      by simp [decodeAll_esc, decodeChar, hnone]⟩
  · intro v hv hneg
    have hchr : pyChr v = .error .valueError := by
      rw [pyChr, if_pos (Or.inl hneg)]
    simp [decodeAll_esc, decodeChar, hv, hchr]
  · intro v hv hnn
    have hub := pyIntHex2_bound c1 c2 v hv
    have hchr : pyChr v = .ok (Char.ofNat v.toNat) := by
      rw [pyChr, if_neg (by omega)]
    simp [decodeAll_esc, decodeChar, hv, hchr, decodeAll]

/-- C5 is false as stated only in the error kind: `"%-1["` holds the literal
reserved character `[` in the raw path, yet the scan fails with the leaked
`ValueError` (from the earlier negative escape), not with `UriSyntaxError`. -/
theorem claimC5_counterexample :
    parsePath ("%-1[".toList) = .error .valueError ∧
    '[' ∈ "%-1[".toList ∧ '[' ∈ reservedChars ∧ '[' ≠ '/' ∧ '[' ≠ ':' := by
  decide

/-- C5 (amended): a reserved character other than `/` and `:` anywhere in the
raw path makes the path scan fail — with `UriSyntaxError` unless an earlier
escape decodes to a negative value, in which case the leaked `ValueError` —
while a `%`-free raw path whose every character is unreserved or `/` or `:`
is preserved verbatim; in the raw fragment every reserved character
(including `/` and `:`) forces a failure in the same way. -/
theorem claimC5 (s t u : List Char)
    (hs : ∃ c ∈ s, c ∈ reservedChars ∧ c ≠ '/' ∧ c ≠ ':')
    (ht : ∃ c ∈ t, c ∈ reservedChars)
    (hu1 : '%' ∉ u) (hu2 : ∀ c ∈ u, ¬(c ∈ reservedChars ∧ c ≠ '/' ∧ c ≠ ':')) :
    (parsePath s = .error .uriError ∨ parsePath s = .error .valueError) ∧
    (parseFragment t = .error .uriError ∨ parseFragment t = .error .valueError) ∧
    parsePath u = .ok u := by
  refine ⟨?_, ?_, parsePath_verbatim u hu1 hu2⟩
  · apply except_error_cases
    intro out hout
    obtain ⟨c, hc, hres⟩ := hs
    exact parsePath_ok_no_reserved s out hout c hc hres
  · apply except_error_cases
    intro out hout
    obtain ⟨c, hc, hres⟩ := ht
    exact parseFragment_ok_no_reserved t out hout c hc hres

/-- C2: the splitter partitions via the first `?` and the first `#` only:
if the first `?` comes after the first `#` parse fails with `UriSyntaxError`
(before anything else happens); with both in order the raw components are the
text before `?`, between `?` and `#`, and after `#`; with a single delimiter
the remainder goes to the query (for `?`) or the fragment (for `#`);
without delimiters the whole input is the raw path, and a successful parse
then yields the percent-decoded input as path with empty fragment and empty
query mapping. -/
theorem claimC2 (s p q f : List Char) :
    (∀ qi hi, charIndex '?' s = some qi → charIndex '#' s = some hi →
      hi < qi → runParse s = (.error .uriError, initState)) ∧
    ('?' ∉ p → '#' ∉ p → '#' ∉ q →
      splitUriRaw (p ++ '?' :: (q ++ '#' :: f)) = .ok (p, q, f)) ∧
    ('?' ∉ p → '#' ∉ p ++ '?' :: q →
      splitUriRaw (p ++ '?' :: q) = .ok (p, q, [])) ∧
    ('#' ∉ p → '?' ∉ p ++ '#' :: f →
      splitUriRaw (p ++ '#' :: f) = .ok (p, [], f)) ∧
    ('?' ∉ s → '#' ∉ s → splitUriRaw s = .ok (s, [], [])) ∧
    (∀ st, '?' ∉ s → '#' ∉ s → runParse s = (.ok (), st) →
      decodeAll s = .ok st.path ∧ st.fragment = [] ∧ st.query_params = []) := by
  refine ⟨?_, splitUriRaw_both p q f, splitUriRaw_query_only p q,
    splitUriRaw_fragment_only p f, splitUriRaw_neither s, ?_⟩
  · intro qi hi hq hh hlt
    exact runParse_split_error s .uriError
      (splitUriRaw_ordering_error s qi hi hq hh hlt)
  · intro st hq hh hrun
    have hsplit := splitUriRaw_neither s hq hh
    rw [runParse] at hrun
    simp only [splitStage, hsplit] at hrun
    cases hp : parsePath s with
    | error e =>
        simp only [pathStage, hp] at hrun
        cases hrun
    | ok dp =>
        simp [pathStage, hp, fragmentStage, queryStage, initState] at hrun
        cases hrun
        exact ⟨parsePath_ok_decodeAll s dp hp, rfl, rfl⟩

theorem claimC2_witness :
    runParse ("a#b?c".toList) = (.error .uriError, initState) ∧
    splitUriRaw ("a?b#c".toList) = .ok ("a".toList, "b".toList, "c".toList) ∧
    splitUriRaw ("a?bc".toList) = .ok ("a".toList, "bc".toList, []) ∧
    splitUriRaw ("a#bc".toList) = .ok ("a".toList, [], "bc".toList) ∧
    splitUriRaw ("abc".toList) = .ok ("abc".toList, [], []) ∧
    (decodeAll ("a%20b".toList) = .ok ("a b".toList) ∧
      ([] : List Char) = [] ∧
      ([] : List (List Char × List Char)) = []) :=
  ⟨(claimC2 ("a#b?c".toList) [] [] []).1 3 1 (by decide) (by decide)
      (by decide),
   (claimC2 [] ("a".toList) ("b".toList) ("c".toList)).2.1 (by decide)
      (by decide) (by decide),
   (claimC2 [] ("a".toList) ("bc".toList) []).2.2.1 (by decide) (by decide),
   (claimC2 [] ("a".toList) [] ("bc".toList)).2.2.2.1 (by decide) (by decide),
   (claimC2 ("abc".toList) [] [] []).2.2.2.2.1 (by decide) (by decide),
   (claimC2 ("a%20b".toList) [] [] []).2.2.2.2.2
      ⟨"a b".toList, [], [], []⟩ (by decide) (by decide) (by decide)⟩

/-- C6 is false as stated only in the error kind: in the raw query
`"a=%-1&b"` the token `"b"` has zero `=` signs, yet the parse fails with the
leaked `ValueError` from the earlier token's negative escape, not with
`UriSyntaxError`. -/
theorem claimC6_counterexample :
    parseQuery ("a=%-1&b".toList) = .error .valueError ∧
    "b".toList ∈ splitAll '&' ("a=%-1&b".toList) ∧
    countEq '=' ("b".toList) = 0 := by
  decide

/-- C6 (amended): an empty raw query yields the empty mapping with no error;
otherwise the query splits on `&` and any token whose `=`-count differs from
one makes the parse fail — with `UriSyntaxError`, except that an earlier
token whose escape decodes to a negative value leaks `ValueError` first. -/
theorem claimC6 (q t : List Char)
    (hq : q ≠ []) (hmem : t ∈ splitAll '&' q) (hcnt : countEq '=' t ≠ 1) :
    parseQuery [] = .ok [] ∧
    (parseQuery q = .error .uriError ∨ parseQuery q = .error .valueError) := by
  refine ⟨rfl, ?_⟩
  apply except_error_cases
  intro m hm
  rw [parseQuery, if_neg hq] at hm
  by_cases hbad : q.any badQueryChar
  · rw [if_pos hbad] at hm
    cases hm
  · rw [if_neg hbad] at hm
    cases hpt : parseQueryTokens (splitAll '&' q) [] with
    | mk r ps =>
        cases r with
        | error e =>
            rw [hpt] at hm
            cases hm
        | ok u => exact parseQueryTokens_not_ok _ t hmem hcnt [] u ps hpt

theorem claimC6_witness :
    parseQuery [] = .ok [] ∧
    (parseQuery ("a=1&novalue".toList) = .error .uriError ∨
     parseQuery ("a=1&novalue".toList) = .error .valueError) :=
  claimC6 ("a=1&novalue".toList) ("novalue".toList)
    (by decide) (by decide) (by decide)

/-- C7: the query mapping is insertion-ordered with last-wins overwriting:
after a successful parse of a non-empty raw query its keys are the decoded
token keys in order of first occurrence, and each key's value is the decoded
value of its last token. -/
theorem claimC7 (q : List Char) (m : List (List Char × List Char))
    (h : parseQuery q = .ok m) :
    (q = [] ∧ m = []) ∨
    ∃ pairs, decodeTokens (splitAll '&' q) = some pairs ∧
      keysOf m = dedupFirst (pairs.map Prod.fst) ∧
      ∀ k, assocLookup k m = lastVal k pairs := by
  by_cases hq : q = []
  · subst hq
    rw [parseQuery, if_pos rfl] at h
    injection h with h
    exact Or.inl ⟨rfl, h.symm⟩
  · right
    rw [parseQuery, if_neg hq] at h
    by_cases hbad : q.any badQueryChar
    · rw [if_pos hbad] at h
      cases h
    · rw [if_neg hbad] at h
      cases hpt : parseQueryTokens (splitAll '&' q) [] with
      | mk r ps =>
          cases r with
          | error e =>
              rw [hpt] at h
              cases h
          | ok u =>
              rw [hpt] at h
              dsimp only at h
              injection h with h
              subst h
              obtain ⟨pairs, hdec, hm⟩ := parseQueryTokens_ok _ [] u ps hpt
              subst hm
              refine ⟨pairs, hdec, ?_, ?_⟩
              · rw [keysOf_foldInsert pairs []]
                rfl
              · intro k
                rw [assocLookup_foldInsert pairs [] k]
                cases lastVal k pairs <;> rfl

theorem claimC7_witness :
    ("a=1&a=2&b=3".toList = ([] : List Char) ∧
      [("a".toList, "2".toList), ("b".toList, "3".toList)] =
        ([] : List (List Char × List Char))) ∨
    ∃ pairs, decodeTokens (splitAll '&' ("a=1&a=2&b=3".toList)) = some pairs ∧
      keysOf [("a".toList, "2".toList), ("b".toList, "3".toList)] =
        dedupFirst (pairs.map Prod.fst) ∧
      ∀ k, assocLookup k [("a".toList, "2".toList), ("b".toList, "3".toList)] =
        lastVal k pairs :=
  claimC7 ("a=1&a=2&b=3".toList)
    [("a".toList, "2".toList), ("b".toList, "3".toList)] (by decide)

/-- C8 is false as stated: a parse that fails in the query stage leaves the
pairs inserted before the failing token readable through
`get_query_params` (and the decoded path through `get_path`).  On
`"p?a=1&bad"` the parse fails, yet the final state holds the pair
`("a", "1")`. -/
theorem claimC8_counterexample :
    runParse ("p?a=1&bad".toList) =
      (.error .uriError,
        { path := "p".toList, fragment := [], query := "a=1&bad".toList,
          query_params := [("a".toList, "1".toList)] }) ∧
    [("a".toList, "1".toList)] ≠ ([] : List (List Char × List Char)) := by
  decide

/-- C8 (amended): parse fails fast — the first violation aborts the run and
later stages never execute, and a failing path/fragment scan publishes
nothing of its own partial output (the field keeps the raw component) — but
accessors are not reset on failure: outputs of stages completed before the
failure (and query pairs inserted before a failing token) remain exposed. -/
theorem claimC8 (s : List Char) :
    (∀ e, splitUriRaw s = .error e → runParse s = (.error e, initState)) ∧
    (∀ p q f e, splitUriRaw s = .ok (p, q, f) → parsePath p = .error e →
      runParse s = (.error e, ⟨p, f, q, []⟩)) ∧
    (∀ p q f dp e, splitUriRaw s = .ok (p, q, f) → parsePath p = .ok dp →
      parseFragment f = .error e →
      runParse s = (.error e, ⟨dp, f, q, []⟩)) := by
  refine ⟨?_, ?_, ?_⟩
  · intro e he
    exact runParse_split_error s e he
  · intro p q f e hs hp
    simp [runParse, splitStage, hs, pathStage, hp, initState]
  · intro p q f dp e hs hp hf
    simp [runParse, splitStage, hs, pathStage, hp, fragmentStage, hf,
      initState]

theorem claimC8_witness :
    runParse ("x#y?z".toList) = (.error .uriError, initState) ∧
    runParse ("a[?q=1".toList) =
      (.error .uriError, ⟨"a[".toList, [], "q=1".toList, []⟩) ∧
    runParse ("p#fr[".toList) =
      (.error .uriError, ⟨"p".toList, "fr[".toList, [], []⟩) :=
  ⟨(claimC8 ("x#y?z".toList)).1 .uriError (by decide),
   (claimC8 ("a[?q=1".toList)).2.1 ("a[".toList) ("q=1".toList) []
      .uriError (by decide) (by decide),
   (claimC8 ("p#fr[".toList)).2.2 ("p".toList) [] ("fr[".toList)
      ("p".toList) .uriError (by decide) (by decide) (by decide)⟩

theorem claimC5_witness :
    (parsePath ("a?b".toList) = .error .uriError ∨
     parsePath ("a?b".toList) = .error .valueError) ∧
    (parseFragment ("/f".toList) = .error .uriError ∨
     parseFragment ("/f".toList) = .error .valueError) ∧
    parsePath ("/a:b".toList) = .ok ("/a:b".toList) :=
  claimC5 ("a?b".toList) ("/f".toList) ("/a:b".toList)
    (by decide) (by decide) (by decide) (by decide)

theorem claimC4_witness :
    parsePath ['%'] = .error .uriError ∧
    parsePath ['%', 'A'] = .error .uriError ∧
    parsePath ['%', 'G', 'Z'] = .error .uriError ∧
    decodeAll ['%', '-', '1'] = .error .valueError ∧
    decodeAll ['%', '2', 'B'] = .ok ['+'] :=
  ⟨(claimC4 'A' 'G' 'Z').1.1,
   (claimC4 'A' 'G' 'Z').2.1.1,
   ((claimC4 'A' 'G' 'Z').2.2.1 (by decide)).1,
   (claimC4 '-' '-' '1').2.2.2.1 (-1) (by decide) (by decide),
   (claimC4 '+' '2' 'B').2.2.2.2 43 (by decide) (by decide)⟩

theorem hexDigitVal_upperHexChar :
    ∀ d, d < 16 → hexDigitVal (upperHexChar d) = some d := by
  decide

theorem hexDigitVal_lowerHexChar :
    ∀ d, d < 16 → hexDigitVal (lowerHexChar d) = some d := by
  decide

/-- C9: decoding `%XX` with `XX` the upper- or lowercase hex digits of a byte
yields exactly the character of that code point: percent-encode then decode
is the identity on bytes. -/
theorem claimC9 (n : Nat) (h : n < 256) :
    decodeAll (encodeByteUpper n) = .ok [Char.ofNat n] ∧
    decodeAll (encodeByteLower n) = .ok [Char.ofNat n] := by
  have h1 : n / 16 < 16 := by omega
  have h2 : n % 16 < 16 := by omega
  have hdc : ∀ a b : Char, hexDigitVal a = some (n / 16) →
      hexDigitVal b = some (n % 16) → decodeChar a b = .ok (Char.ofNat n) := by
    intro a b ha hb
    have hp : pyIntHex2 a b = some ((n : Nat) : Int) := by
      unfold pyIntHex2
      rw [ha, hb]
      dsimp only
      congr 1
      omega
    unfold decodeChar
    rw [hp]
    dsimp only
    rw [pyChr, if_neg (by push_neg; omega)]
    simp
  constructor
  · simp only [encodeByteUpper]
    rw [decodeAll_esc,
      hdc _ _ (hexDigitVal_upperHexChar _ h1) (hexDigitVal_upperHexChar _ h2)]
    rfl
  · simp only [encodeByteLower]
    rw [decodeAll_esc,
      hdc _ _ (hexDigitVal_lowerHexChar _ h1) (hexDigitVal_lowerHexChar _ h2)]
    rfl

theorem claimC9_witness :
    decodeAll (encodeByteUpper 171) = .ok [Char.ofNat 171] ∧
    decodeAll (encodeByteLower 171) = .ok [Char.ofNat 171] :=
  claimC9 171 (by decide)

theorem badQueryChar_false (c : Char) (h : c ∉ reservedChars) :
    badQueryChar c = false := by
  simp [badQueryChar, h]

/-- C10: a query token may have an empty key or an empty value: `"=v"` maps
the empty key to the decoded value, and `"k="` maps the decoded key to the
empty string, with no error. -/
theorem claimC10 (k v dk dv : List Char)
    (hkres : ∀ c ∈ k, c ∉ reservedChars) (hvres : ∀ c ∈ v, c ∉ reservedChars)
    (hk : decodeAll k = .ok dk) (hv : decodeAll v = .ok dv) :
    parseQuery ('=' :: v) = .ok [([], dv)] ∧
    parseQuery (k ++ ['=']) = .ok [(dk, [])] := by
  have hampv : '&' ∉ v := fun hm => hvres '&' hm (by decide)
  have heqv : '=' ∉ v := fun hm => hvres '=' hm (by decide)
  have hampk : '&' ∉ k := fun hm => hkres '&' hm (by decide)
  have heqk : '=' ∉ k := fun hm => hkres '=' hm (by decide)
  have hvany : v.any badQueryChar = false := by
    rw [List.any_eq_false]
    intro c hc
    rw [badQueryChar_false c (hvres c hc)]
    decide
  have hkany : k.any badQueryChar = false := by
    rw [List.any_eq_false]
    intro c hc
    rw [badQueryChar_false c (hkres c hc)]
    decide
  constructor
  · have hne : ('=' :: v) ≠ [] := by simp
    have hany : ('=' :: v).any badQueryChar = false := by
      rw [List.any_cons, hvany, Bool.or_false]
      decide
    have hsplit : splitAll '&' ('=' :: v) = ['=' :: v] :=
      splitAll_not_mem '&' ('=' :: v) (by
        intro hm
        rcases List.mem_cons.mp hm with h | h
        · exact absurd h (by decide)
        · exact hampv h)
    have hcnt : ¬(countEq '=' ('=' :: v) ≠ 1) := by
      rw [countEq_cons, if_pos rfl, countEq_not_mem '=' v heqv]
      omega
    have hsf : splitOnFirst '=' ('=' :: v) = some ([], v) := by
      rw [splitOnFirst, if_pos rfl]
    rw [parseQuery, if_neg hne, hany]
    simp only [Bool.false_eq_true, if_false]
    rw [hsplit, parseQueryTokens, if_neg hcnt, hsf]
    dsimp only
    have hnil : decodeAll ([] : List Char) = .ok [] := rfl
    rw [hnil]
    dsimp only
    rw [hv]
    rfl
  · have hne : k ++ ['='] ≠ [] := by simp
    have hany : (k ++ ['=']).any badQueryChar = false := by
      rw [List.any_append, hkany]
      decide
    have hsplit : splitAll '&' (k ++ ['=']) = [k ++ ['=']] :=
      splitAll_not_mem '&' (k ++ ['=']) (by
        intro hm
        rcases List.mem_append.mp hm with h | h
        · exact hampk h
        · rcases List.mem_cons.mp h with h | h
          · exact absurd h (by decide)
          · cases h)
    have hcnt : ¬(countEq '=' (k ++ ['=']) ≠ 1) := by
      rw [countEq_append, countEq_not_mem '=' k heqk]
      decide
    have hsf : splitOnFirst '=' (k ++ ['=']) = some (k, []) :=
      splitOnFirst_append '=' k [] heqk
    rw [parseQuery, if_neg hne, hany]
    simp only [Bool.false_eq_true, if_false]
    rw [hsplit, parseQueryTokens, if_neg hcnt, hsf]
    dsimp only
    rw [hk]
    dsimp only
    have hnil : decodeAll ([] : List Char) = .ok [] := rfl
    rw [hnil]
    rfl

theorem claimC10_witness :
    parseQuery ('=' :: "v".toList) = .ok [([], "v".toList)] ∧
    parseQuery ("k".toList ++ ['=']) = .ok [("k".toList, [])] :=
  claimC10 ("k".toList) ("v".toList) ("k".toList) ("v".toList)
    (by decide) (by decide) (by decide) (by decide)

end Uri
